import Mathlib

/-!
Shallow embedding of `packages/angular/cli/commands/config-impl.ts` (the
path-addressed accessor core of the `ng config` command): the path parser
`parseJsonPath`, the traversal reducers of `getValueFromPath` and
`setValueFromPath`, and the value-normalization policy `normalizeValue`
with its registry `validCliPaths`.

Modelling conventions:
- JavaScript `JsonValue` becomes the inductive `JsonValue`; JS numbers are
  restricted to integers (every value appearing in the source or the
  properties under study is an integer).
- The reducer callbacks of `getValueFromPath` / `setValueFromPath` are typed
  `string | number` in the source; that sum becomes the inductive `Fragment`.
- The JS `undefined` sentinel threaded through the reducers becomes `none` of
  an `Option`; the reducers absorb `undefined` (every later step maps it to
  `undefined` again), which the recursive versions render by returning `none`
  immediately.
- In-place mutation of the document is rendered functionally: a set walk
  returns the updated subtree together with the reducer's final value, and a
  parent writes the recursively-updated child back into its own copy.
- A thrown exception becomes `none` of an outer `Option` (`parseJsonPath`) or
  an error constructor (`normalizeValue`).
-/

/-- One reducer fragment of a parsed JSON path: the source types these
`string | number`.  `parseJsonPath` as written only ever produces strings;
the numeric constructor exists because both reducers dispatch on
`typeof current == 'number'`. -/
inductive Fragment where
  | str (s : String)
  | num (n : Nat)
  deriving DecidableEq, Repr

/-- JSON values: null, booleans, numbers (restricted to integers), strings,
arrays, and objects (ordered association lists, mirroring JS property
insertion order). -/
inductive JsonValue where
  | null
  | bool (b : Bool)
  | num (n : Int)
  | str (s : String)
  | arr (xs : List JsonValue)
  | obj (fields : List (String × JsonValue))

/-- JS object property read `value[current]`: the first binding of the key,
`none` when the property is absent (JS `undefined`). -/
def lookupField : List (String × JsonValue) → String → Option JsonValue
  | [], _ => none
  | (k, v) :: rest, s => if k = s then some v else lookupField rest s

/-- JS object property write `value[current] = v`: update the existing
binding in place (preserving insertion order) or append a new one. -/
def upsert : List (String × JsonValue) → String → JsonValue → List (String × JsonValue)
  | [], s, v => [(s, v)]
  | (k, w) :: rest, s, v => if k = s then (s, v) :: rest else (k, w) :: upsert rest s v

/-- JS array element write `value[n] = v`: replace in range, otherwise extend
the array up to index `n`; the intervening holes serialize as `null`, which is
how they are rendered here. -/
def setIdx : List JsonValue → Nat → JsonValue → List JsonValue
  | [], 0, v => [v]
  | [], n + 1, v => JsonValue.null :: setIdx [] n v
  | _ :: rest, 0, v => v :: rest
  | x :: rest, n + 1, v => x :: setIdx rest n v

/-- The lookahead of `setValueFromPath`: the container materialized for a
missing intermediate slot is `[]` when the next fragment is a number and
`{}` when it is a string. -/
def containerFor : Fragment → JsonValue
  | .num _ => JsonValue.arr []
  | .str _ => JsonValue.obj []

/-- The reducer of `getValueFromPath` on an already-parsed fragment list.
Each step first rules out `value == undefined || typeof value != 'object'`
(`null` and scalars), then reads `value[current]` when the fragment kind
matches the container kind, and yields `undefined` (`none`) otherwise. -/
def getWalk : List Fragment → JsonValue → Option JsonValue
  | [], v => some v
  | c :: rest, v =>
    match v with
    | .null => none
    | .bool _ => none
    | .num _ => none
    | .str _ => none
    | .obj fields =>
      match c with
      | .str s =>
        match lookupField fields s with
        | some child => getWalk rest child
        | none => none
      | .num _ => none
    | .arr xs =>
      match c with
      | .num n =>
        match xs[n]? with
        | some child => getWalk rest child
        | none => none
      | .str _ => none

/-- The reducer of `setValueFromPath` on an already-parsed fragment list.
Returns the updated subtree (the source mutates in place) paired with the
reducer's final value (`none` is the source's `undefined`, the NotFound
sentinel).  On the last fragment it assigns `newValue`; on a non-final
fragment whose slot holds `undefined` or `null` (`value[current] == undefined`
is a loose comparison) it materializes `containerFor` the next fragment; a
kind mismatch or a scalar in the way yields `undefined` unchanged. -/
def setWalk : List Fragment → JsonValue → JsonValue → JsonValue × Option JsonValue
  | [], v, _ => (v, some v)
  | c :: rest, v, nv =>
    match v with
    | .null => (v, none)
    | .bool _ => (v, none)
    | .num _ => (v, none)
    | .str _ => (v, none)
    | .obj fields =>
      match c with
      | .str s =>
        match rest with
        | [] => (JsonValue.obj (upsert fields s nv), some nv)
        | c2 :: _ =>
          match lookupField fields s with
          | some JsonValue.null =>
            (JsonValue.obj (upsert (upsert fields s (containerFor c2)) s
                (setWalk rest (containerFor c2) nv).1),
             (setWalk rest (containerFor c2) nv).2)
          | some cv =>
            (JsonValue.obj (upsert fields s (setWalk rest cv nv).1),
             (setWalk rest cv nv).2)
          | none =>
            (JsonValue.obj (upsert (upsert fields s (containerFor c2)) s
                (setWalk rest (containerFor c2) nv).1),
             (setWalk rest (containerFor c2) nv).2)
      | .num _ => (v, none)
    | .arr xs =>
      match c with
      | .num n =>
        match rest with
        | [] => (JsonValue.arr (setIdx xs n nv), some nv)
        | c2 :: _ =>
          match xs[n]? with
          | some JsonValue.null =>
            (JsonValue.arr (setIdx (setIdx xs n (containerFor c2)) n
                (setWalk rest (containerFor c2) nv).1),
             (setWalk rest (containerFor c2) nv).2)
          | some cv =>
            (JsonValue.arr (setIdx xs n (setWalk rest cv nv).1),
             (setWalk rest cv nv).2)
          | none =>
            (JsonValue.arr (setIdx (setIdx xs n (containerFor c2)) n
                (setWalk rest (containerFor c2) nv).1),
             (setWalk rest (containerFor c2) nv).2)
      | .str _ => (v, none)

/-! ## The path parser `parseJsonPath`

The source splits the path on dots, matches each fragment against the regex
`([^\[]+)((\[.*\])*)` (throwing `Invalid JSON path.` when it does not match),
pushes the name group and then each bracket group content (splitting the
bracket block on the two-character separator of a closing-then-opening
bracket), and finally filters out empty strings.  String scanning is carried
out on character lists with structural recursion so that concrete instances
evaluate inside the kernel. -/

/-- JS `path.split(".")`: split a character list on the dot character; the
empty input yields one empty piece, exactly as in JS. -/
def splitDots : List Char → List (List Char)
  | [] => [[]]
  | '.' :: rest => [] :: splitDots rest
  | ch :: rest =>
    match splitDots rest with
    | [] => [[ch]]
    | g :: gs => (ch :: g) :: gs

/-- JS `block.split("][")`: split a character list at each non-overlapping,
leftmost occurrence of a closing bracket immediately followed by an opening
bracket. -/
def splitBrkt : List Char → List (List Char)
  | [] => [[]]
  | ']' :: '[' :: rest => [] :: splitBrkt rest
  | ch :: rest =>
    match splitBrkt rest with
    | [] => [[ch]]
    | g :: gs => (ch :: g) :: gs

/-- The regex match `fragment.match(/([^\[]+)((\[.*\])*)/)`.  The match, when
it exists, starts at the first character that is not an opening bracket;
group 1 greedily takes the following run of non-opening-bracket characters;
group 2 (`(\[.*\])*`, with a greedy dot-star backtracking to the last closing
bracket) consumes from the following opening bracket through the last closing
bracket of the remainder, or is empty when the remainder has no closing
bracket (or is empty).  `none` models a failed match (the source throws
`Invalid JSON path.`). -/
def matchFragment (f : List Char) : Option (List Char × List Char) :=
  let rest := f.dropWhile (fun ch => ch = '[')
  if rest = [] then none
  else
    let g1 := rest.takeWhile (fun ch => ch ≠ '[')
    let suf := rest.dropWhile (fun ch => ch ≠ '[')
    some (g1, (suf.reverse.dropWhile (fun ch => ch ≠ ']')).reverse)

/-- The per-fragment body of the parse loop: push the name group; when the
bracket group is nonempty, strip its outer brackets (`slice(1, -1)`) and push
each piece of the split on the bracket-pair separator. -/
def parseFragment (f : List Char) : Option (List (List Char)) :=
  match matchFragment f with
  | none => none
  | some (g1, g2) =>
    some (g1 :: (if g2 = [] then [] else splitBrkt (g2.drop 1).dropLast))

/-- `parseJsonPath` of the source: split on dots, parse every fragment in
order (the first failure propagates, modelling the thrown
`Invalid JSON path.`), concatenate the pushed pieces, and keep only nonempty
strings (`result.filter(fragment => !!fragment)`). -/
def parseJsonPath (path : String) : Option (List String) :=
  ((splitDots path.toList).mapM parseFragment).map
    (fun ls => ((ls.flatten.filter (fun g => g ≠ [])).map (fun g => String.mk g)))

/-- The fragments produced by `parseJsonPath` as reducer fragments: the
source's return type is `string[]`, so every fragment is a string. -/
def parseJsonPathFrags (path : String) : Option (List Fragment) :=
  (parseJsonPath path).map (fun l => l.map Fragment.str)

/-- `getValueFromPath` of the source: parse, then run the get reducer.  The
parse happens *outside* the `try` block, so a parse failure propagates as an
exception (outer `none`); the walk itself never throws, and its `undefined`
result (inner `none`) is the NotFound sentinel. -/
def getValueFromPath (root : JsonValue) (path : String) : Option (Option JsonValue) :=
  (parseJsonPathFrags path).map (fun frags => getWalk frags root)

/-- `setValueFromPath` of the source: parse, then run the set reducer over
the (functionally rendered) mutable document.  As in `getValueFromPath`, a
parse failure is not caught. -/
def setValueFromPath (root : JsonValue) (path : String) (newValue : JsonValue) :
    Option (JsonValue × Option JsonValue) :=
  (parseJsonPathFrags path).map (fun frags => setWalk frags root newValue)

/-! ## Value normalization `normalizeValue` -/

/-- The registry `validCliPaths` of the source, an ordered literal map. -/
def validCliPaths : List (String × String) :=
  [("cli.warnings.versionMismatch", "boolean"),
   ("cli.warnings.typescriptMismatch", "boolean"),
   ("cli.defaultCollection", "string"),
   ("cli.packageManager", "string")]

/-- Whitespace for the model of JS `String.prototype.trim` (the common
whitespace characters; the exotic Unicode space classes are outside the
model and outside every value the source handles). -/
def jsWS (c : Char) : Bool :=
  c = ' ' ∨ c = '\t' ∨ c = '\n' ∨ c = '\r'

/-- JS `s.trim()` on a character list: drop leading and trailing whitespace. -/
def trimChars (l : List Char) : List Char :=
  ((l.dropWhile jsWS).reverse.dropWhile jsWS).reverse

/-- Decimal digit run to a natural number, `none` on a non-digit. -/
def digitsVal : List Char → Nat → Option Nat
  | [], acc => some acc
  | c :: rest, acc =>
    if c.isDigit then digitsVal rest (acc * 10 + (c.toNat - 48)) else none

/-- Signed decimal literal to an integer, `none` when the characters are not
an optionally-signed nonempty digit run. -/
def charsToInt : List Char → Option Int
  | [] => none
  | '-' :: ds => if ds = [] then none else (digitsVal ds 0).map (fun n => -(n : Int))
  | '+' :: ds => if ds = [] then none else (digitsVal ds 0).map (fun n => (n : Int))
  | ds => (digitsVal ds 0).map (fun n => (n : Int))

/-- JS string coercion `"" + value`: strings pass through, booleans and null
print their keywords, numbers print in decimal, arrays join their elements
with commas rendering null elements as the empty string, objects print as
`[object Object]`. -/
def jsString : JsonValue → String
  | .null => "null"
  | .bool b => if b then "true" else "false"
  | .num n => toString n
  | .str s => s
  | .arr xs => String.intercalate "," (jsStringElems xs)
  | .obj _ => "[object Object]"
where
  /-- Element rendering of JS `Array.prototype.join`: null renders empty. -/
  jsStringElems : List JsonValue → List String
  | [] => []
  | x :: rest =>
    (match x with
     | .null => ""
     | v => jsString v) :: jsStringElems rest

/-- JS `Number(value)` restricted to integer results: `some` is a finite
(integer) result, `none` stands for a non-finite result (NaN).  Strings are
trimmed; the empty string converts to 0; booleans and null convert to 0/1;
arrays convert through their string rendering; objects give NaN.  Fractional,
exponent and hexadecimal forms are outside the model (no value under study
uses them). -/
def jsNumber : JsonValue → Option Int
  | .null => some 0
  | .bool b => some (if b then 1 else 0)
  | .num n => some n
  | .str s =>
    let t := trimChars s.toList
    if t = [] then some 0 else charsToInt t
  | .arr xs =>
    let t := trimChars (jsString (.arr xs)).toList
    if t = [] then some 0 else charsToInt t
  | .obj _ => none

/-- Outcome of the external lenient JSON parse (`parseJson(value,
JsonParseMode.Loose)` from `@angular-devkit/core`). -/
inductive ParseOutcome where
  | ok (v : JsonValue)
  | invalidJsonCharacter

/-- Modelled from the spec: the lenient JSON parser lives in the external
`@angular-devkit/core` package, not under `src/`.  Per the spec it parses
relaxed textual JSON and fails on free-form text with an
invalid-JSON-character error; the model covers the scalar grammar (the
keywords, signed integers, and double-quoted strings, each surrounded by
optional whitespace) and reports `invalidJsonCharacter` for everything else,
including object-like text, matching the spec's taxonomy in which the
object-opener case is the one the caller rethrows. -/
def parseJsonLoose (s : String) : ParseOutcome :=
  let t := trimChars s.toList
  if t = "true".toList then .ok (.bool true)
  else if t = "false".toList then .ok (.bool false)
  else if t = "null".toList then .ok .null
  else
    match charsToInt t with
    | some n => .ok (.num n)
    | none =>
      match t with
      | '"' :: rest =>
        if rest ≠ [] ∧ rest.getLast? = some '"' then .ok (.str (String.mk rest.dropLast))
        else .invalidJsonCharacter
      | _ => .invalidJsonCharacter

/-- Does the raw text start with an opening curly brace
(JS `value.startsWith(String.fromCharCode(123))`)? -/
def startsWithBrace (s : String) : Bool :=
  match s.toList with
  | c :: _ => c = Char.ofNat 123
  | [] => false

/-- `validCliPaths.get(path)`: first binding of the path in the string-valued
registry map. -/
def lookupKind : List (String × String) → String → Option String
  | [], _ => none
  | (k, v) :: rest, s => if k = s then some v else lookupKind rest s

/-- Result of `normalizeValue`: a returned JSON value, the non-finite JS
number the inverted guard of the `number` branch returns, the thrown
`Invalid value type; expected a ...` error, or the rethrown
`InvalidJsonCharacterException`. -/
inductive NormResult where
  | ok (v : JsonValue)
  | nonFiniteNumber
  | invalidTypeError (expected : String)
  | invalidJsonCharacterError

/-- `normalizeValue` with the registry as a parameter (the source closes over
the literal `validCliPaths`; the parameter makes the otherwise-unreachable
`number` branch addressable).  Branch by the registered kind: `boolean`
trims the string coercion and compares to the keywords, falling through to
the type error; `number` computes `Number(value)` and — as written in the
source — *returns* the value when it is not finite and falls through to the
type error when it is; `string` returns the raw value; an unknown kind falls
through to the type error.  An unregistered path lenient-parses string input,
returning the raw text when the parse fails with an invalid-JSON-character
error on text not starting with an opening curly brace and rethrowing
otherwise; non-string input passes through. -/
def normalizeValueWith (registry : List (String × String)) (value : JsonValue)
    (path : String) : NormResult :=
  match lookupKind registry path with
  | some cliOptionType =>
    match cliOptionType with
    | "boolean" =>
      if trimChars (jsString value).toList = "true".toList then .ok (.bool true)
      else if trimChars (jsString value).toList = "false".toList then .ok (.bool false)
      else .invalidTypeError cliOptionType
    | "number" =>
      match jsNumber value with
      | none => .nonFiniteNumber
      | some _ => .invalidTypeError cliOptionType
    | "string" => .ok value
    | _ => .invalidTypeError cliOptionType
  | none =>
    match value with
    | .str s =>
      match parseJsonLoose s with
      | .ok v => .ok v
      | .invalidJsonCharacter =>
        if startsWithBrace s then .invalidJsonCharacterError else .ok (.str s)
    | v => .ok v

/-- `normalizeValue` of the source: `normalizeValueWith` over the literal
registry. -/
def normalizeValue (value : JsonValue) (path : String) : NormResult :=
  normalizeValueWith validCliPaths value path

/-- The container kind demanded by a fragment: a numeric fragment selects
within arrays, a string fragment within objects. -/
def kindMatches : Fragment → JsonValue → Prop
  | .num _, v => ∃ ys, v = JsonValue.arr ys
  | .str _, v => ∃ fs, v = JsonValue.obj fs

/-! ## Helper lemmas about the container primitives -/

/-- Reading a key immediately after writing it yields the written value. -/
theorem lookupField_upsert (fs : List (String × JsonValue)) (s : String) (v : JsonValue) :
    lookupField (upsert fs s v) s = some v := by
  induction fs with
  | nil => simp [upsert, lookupField]
  | cons kv rest ih =>
    obtain ⟨k, w⟩ := kv
    by_cases h : k = s
    · simp [upsert, lookupField, h]
    · simp [upsert, lookupField, h, ih]

/-- Writing back the value a key already holds leaves the object unchanged. -/
theorem upsert_self (fs : List (String × JsonValue)) (s : String) (v : JsonValue)
    (h : lookupField fs s = some v) : upsert fs s v = fs := by
  induction fs with
  | nil => simp [lookupField] at h
  | cons kv rest ih =>
    obtain ⟨k, w⟩ := kv
    by_cases hk : k = s
    · subst hk
      simp [lookupField] at h
      simp [upsert, h]
    · simp [lookupField, hk] at h
      simp [upsert, hk, ih h]

/-- Reading an index immediately after writing it yields the written value. -/
theorem getElem?_setIdx (xs : List JsonValue) (n : Nat) (v : JsonValue) :
    (setIdx xs n v)[n]? = some v := by
  induction n generalizing xs with
  | zero => cases xs <;> simp [setIdx]
  | succ n ih => cases xs <;> simp [setIdx, ih]

/-- Writing back the value an index already holds leaves the array unchanged. -/
theorem setIdx_self (xs : List JsonValue) (n : Nat) (v : JsonValue)
    (h : xs[n]? = some v) : setIdx xs n v = xs := by
  induction n generalizing xs with
  | zero =>
    cases xs with
    | nil => simp at h
    | cons x rest => simp at h; simp [setIdx, h]
  | succ n ih =>
    cases xs with
    | nil => simp at h
    | cons x rest =>
      simp at h
      simp [setIdx, ih rest h]

/-- A set walk started on the freshly materialized container matching its
first fragment always succeeds: the new container accepts the first step, and
deeper missing slots are materialized the same way. -/
theorem setWalk_containerFor_isSome (rest : List Fragment) :
    ∀ (c : Fragment) (nv : JsonValue),
      ((setWalk (c :: rest) (containerFor c) nv).2).isSome = true := by
  induction rest with
  | nil => intro c nv; cases c <;> simp [setWalk, containerFor]
  | cons c2 r ih =>
    intro c nv
    cases c with
    | str s =>
      simpa [setWalk, containerFor, lookupField] using ih c2 nv
    | num n =>
      simpa [setWalk, containerFor] using ih c2 nv

/-- A set walk never changes the outermost constructor of an object. -/
theorem setWalk_obj_shape (l : List Fragment) (f : List (String × JsonValue))
    (nv : JsonValue) : ∃ f2, (setWalk l (.obj f) nv).1 = JsonValue.obj f2 := by
  match l with
  | [] => exact ⟨f, rfl⟩
  | .num n :: rest => exact ⟨f, rfl⟩
  | .str s :: [] => exact ⟨upsert f s nv, rfl⟩
  | .str s :: c2 :: r =>
    simp only [setWalk]
    split
    · exact ⟨_, rfl⟩
    · exact ⟨_, rfl⟩
    · exact ⟨_, rfl⟩

/-- A successful set walk leaves the assigned value readable at the same
fragment list: the walk descends through exactly the children (existing or
freshly materialized) that the get walk reads back. -/
theorem setWalk_getWalk (frags : List Fragment) :
    ∀ (D V : JsonValue), frags ≠ [] →
      ((setWalk frags D V).2).isSome = true →
      getWalk frags (setWalk frags D V).1 = some V := by
  induction frags with
  | nil => intro D V h; exact absurd rfl h
  | cons c rest ih =>
    intro D V _ hsucc
    cases D with
    | null => simp [setWalk] at hsucc
    | bool b => simp [setWalk] at hsucc
    | num m => simp [setWalk] at hsucc
    | str t => simp [setWalk] at hsucc
    | obj fields =>
      cases c with
      | num n => simp [setWalk] at hsucc
      | str s =>
        cases rest with
        | nil => simp [setWalk, getWalk, lookupField_upsert]
        | cons c2 r2 =>
          rcases hl : lookupField fields s with _ | cv
          · simp only [setWalk, hl] at hsucc ⊢
            simp only [getWalk, lookupField_upsert]
            exact ih (containerFor c2) V (by simp) hsucc
          · cases cv with
            | null =>
              simp only [setWalk, hl] at hsucc ⊢
              simp only [getWalk, lookupField_upsert]
              exact ih (containerFor c2) V (by simp) hsucc
            | bool b =>
              simp only [setWalk, hl] at hsucc ⊢
              simp only [getWalk, lookupField_upsert]
              exact ih (JsonValue.bool b) V (by simp) hsucc
            | num m =>
              simp only [setWalk, hl] at hsucc ⊢
              simp only [getWalk, lookupField_upsert]
              exact ih (JsonValue.num m) V (by simp) hsucc
            | str t =>
              simp only [setWalk, hl] at hsucc ⊢
              simp only [getWalk, lookupField_upsert]
              exact ih (JsonValue.str t) V (by simp) hsucc
            | arr ys =>
              simp only [setWalk, hl] at hsucc ⊢
              simp only [getWalk, lookupField_upsert]
              exact ih (JsonValue.arr ys) V (by simp) hsucc
            | obj fs =>
              simp only [setWalk, hl] at hsucc ⊢
              simp only [getWalk, lookupField_upsert]
              exact ih (JsonValue.obj fs) V (by simp) hsucc
    | arr xs =>
      cases c with
      | str s => simp [setWalk] at hsucc
      | num n =>
        cases rest with
        | nil => simp [setWalk, getWalk, getElem?_setIdx]
        | cons c2 r2 =>
          rcases hl : xs[n]? with _ | cv
          · simp only [setWalk, hl] at hsucc ⊢
            simp only [getWalk, getElem?_setIdx]
            exact ih (containerFor c2) V (by simp) hsucc
          · cases cv with
            | null =>
              simp only [setWalk, hl] at hsucc ⊢
              simp only [getWalk, getElem?_setIdx]
              exact ih (containerFor c2) V (by simp) hsucc
            | bool b =>
              simp only [setWalk, hl] at hsucc ⊢
              simp only [getWalk, getElem?_setIdx]
              exact ih (JsonValue.bool b) V (by simp) hsucc
            | num m =>
              simp only [setWalk, hl] at hsucc ⊢
              simp only [getWalk, getElem?_setIdx]
              exact ih (JsonValue.num m) V (by simp) hsucc
            | str t =>
              simp only [setWalk, hl] at hsucc ⊢
              simp only [getWalk, getElem?_setIdx]
              exact ih (JsonValue.str t) V (by simp) hsucc
            | arr ys =>
              simp only [setWalk, hl] at hsucc ⊢
              simp only [getWalk, getElem?_setIdx]
              exact ih (JsonValue.arr ys) V (by simp) hsucc
            | obj fs =>
              simp only [setWalk, hl] at hsucc ⊢
              simp only [getWalk, getElem?_setIdx]
              exact ih (JsonValue.obj fs) V (by simp) hsucc

/-- A failed set walk returns its input subtree unchanged: failures happen
before any slot is written, and a materialized intermediate container never
fails afterwards. -/
theorem setWalk_fail_noop (frags : List Fragment) :
    ∀ (D V : JsonValue), (setWalk frags D V).2 = none →
      (setWalk frags D V).1 = D := by
  induction frags with
  | nil => intro D V h; simp [setWalk] at h
  | cons c rest ih =>
    intro D V hfail
    cases D with
    | null => rfl
    | bool b => rfl
    | num m => rfl
    | str t => rfl
    | obj fields =>
      cases c with
      | num n => rfl
      | str s =>
        cases rest with
        | nil => simp [setWalk] at hfail
        | cons c2 r2 =>
          rcases hl : lookupField fields s with _ | cv
          · simp only [setWalk, hl] at hfail
            have hfail2 : (setWalk (c2 :: r2) (containerFor c2) V).2 = none := hfail
            have hs := setWalk_containerFor_isSome r2 c2 V
            rw [hfail2] at hs
            simp at hs
          · cases cv with
            | null =>
              simp only [setWalk, hl] at hfail
              have hfail2 : (setWalk (c2 :: r2) (containerFor c2) V).2 = none := hfail
              have hs := setWalk_containerFor_isSome r2 c2 V
              rw [hfail2] at hs
              simp at hs
            | bool b =>
              simp only [setWalk, hl] at hfail ⊢
              rw [upsert_self fields s _ hl]
            | num m =>
              simp only [setWalk, hl] at hfail ⊢
              rw [upsert_self fields s _ hl]
            | str t =>
              simp only [setWalk, hl] at hfail ⊢
              rw [upsert_self fields s _ hl]
            | arr ys =>
              simp only [setWalk, hl] at hfail ⊢
              have hfail2 : (setWalk (c2 :: r2) (JsonValue.arr ys) V).2 = none := hfail
              show JsonValue.obj (upsert fields s (setWalk (c2 :: r2) (JsonValue.arr ys) V).1)
                  = JsonValue.obj fields
              rw [ih (JsonValue.arr ys) V hfail2, upsert_self fields s _ hl]
            | obj fs =>
              simp only [setWalk, hl] at hfail ⊢
              have hfail2 : (setWalk (c2 :: r2) (JsonValue.obj fs) V).2 = none := hfail
              show JsonValue.obj (upsert fields s (setWalk (c2 :: r2) (JsonValue.obj fs) V).1)
                  = JsonValue.obj fields
              rw [ih (JsonValue.obj fs) V hfail2, upsert_self fields s _ hl]
    | arr xs =>
      cases c with
      | str s => rfl
      | num n =>
        cases rest with
        | nil => simp [setWalk] at hfail
        | cons c2 r2 =>
          rcases hl : xs[n]? with _ | cv
          · simp only [setWalk, hl] at hfail
            have hfail2 : (setWalk (c2 :: r2) (containerFor c2) V).2 = none := hfail
            have hs := setWalk_containerFor_isSome r2 c2 V
            rw [hfail2] at hs
            simp at hs
          · cases cv with
            | null =>
              simp only [setWalk, hl] at hfail
              have hfail2 : (setWalk (c2 :: r2) (containerFor c2) V).2 = none := hfail
              have hs := setWalk_containerFor_isSome r2 c2 V
              rw [hfail2] at hs
              simp at hs
            | bool b =>
              simp only [setWalk, hl] at hfail ⊢
              rw [setIdx_self xs n _ hl]
            | num m =>
              simp only [setWalk, hl] at hfail ⊢
              rw [setIdx_self xs n _ hl]
            | str t =>
              simp only [setWalk, hl] at hfail ⊢
              rw [setIdx_self xs n _ hl]
            | arr ys =>
              simp only [setWalk, hl] at hfail ⊢
              have hfail2 : (setWalk (c2 :: r2) (JsonValue.arr ys) V).2 = none := hfail
              show JsonValue.arr (setIdx xs n (setWalk (c2 :: r2) (JsonValue.arr ys) V).1)
                  = JsonValue.arr xs
              rw [ih (JsonValue.arr ys) V hfail2, setIdx_self xs n _ hl]
            | obj fs =>
              simp only [setWalk, hl] at hfail ⊢
              have hfail2 : (setWalk (c2 :: r2) (JsonValue.obj fs) V).2 = none := hfail
              show JsonValue.arr (setIdx xs n (setWalk (c2 :: r2) (JsonValue.obj fs) V).1)
                  = JsonValue.arr xs
              rw [ih (JsonValue.obj fs) V hfail2, setIdx_self xs n _ hl]

/-- A set walk never changes the outermost constructor of an array. -/
theorem setWalk_arr_shape (l : List Fragment) (xs : List JsonValue)
    (nv : JsonValue) : ∃ ys, (setWalk l (.arr xs) nv).1 = JsonValue.arr ys := by
  match l with
  | [] => exact ⟨xs, rfl⟩
  | .str s :: rest => exact ⟨xs, rfl⟩
  | .num n :: [] => exact ⟨setIdx xs n nv, rfl⟩
  | .num n :: c2 :: r =>
    simp only [setWalk]
    split
    · exact ⟨_, rfl⟩
    · exact ⟨_, rfl⟩
    · exact ⟨_, rfl⟩

/-! ## The claims -/

/-- Claim C1, counterexample: `parseJsonPath("a[3].foo.bar[2]")` does not
produce integer index steps — the source pushes the bracket contents as
strings (its declared return type is `string[]`), so the parsed path is not
the claimed sequence with numeric fragments 3 and 2. -/
theorem parseJsonPath_not_integer_steps :
    parseJsonPathFrags "a[3].foo.bar[2]"
      ≠ some [Fragment.str "a", Fragment.num 3, Fragment.str "foo",
              Fragment.str "bar", Fragment.num 2] := by
  decide

/-- Claim C1, amended: `parseJsonPath` emits one step for each segment name
followed by one step per bracketed group, keeping each bracket's contents as
a *string* fragment with no integer conversion, and accepts non-numeric
bracket contents without raising a syntax error:
`parseJsonPath("a[3].foo.bar[2]")` is the all-string fragment sequence
`["a", "3", "foo", "bar", "2"]`, and `parseJsonPath("a[xyz]")` succeeds with
`["a", "xyz"]`. -/
theorem parseJsonPath_string_steps :
    parseJsonPathFrags "a[3].foo.bar[2]"
      = some [Fragment.str "a", Fragment.str "3", Fragment.str "foo",
              Fragment.str "bar", Fragment.str "2"]
    ∧ parseJsonPathFrags "a[xyz]" = some [Fragment.str "a", Fragment.str "xyz"] := by
  exact ⟨by decide, by decide⟩

/-- Claim C2: for every document, every non-empty fragment path and every
value, whenever the set walk succeeds (its reducer result is not the
`undefined` NotFound sentinel), reading the updated document back at the same
path returns the value just written. -/
theorem set_then_get_returns_value (frags : List Fragment) (D V : JsonValue)
    (hne : frags ≠ []) (hsucc : ((setWalk frags D V).2).isSome = true) :
    getWalk frags (setWalk frags D V).1 = some V :=
  setWalk_getWalk frags D V hne hsucc

/-- Witness for claim C2: writing 5 at key `a` of the empty object succeeds,
and reading `a` back yields 5. -/
theorem set_then_get_returns_value_witness :
    getWalk [Fragment.str "a"]
      ((setWalk [Fragment.str "a"] (JsonValue.obj []) (JsonValue.num 5)).1)
      = some (JsonValue.num 5) :=
  set_then_get_returns_value [Fragment.str "a"] (JsonValue.obj []) (JsonValue.num 5)
    (by decide) rfl

/-- Claim C3: a failed set walk (NotFound) leaves the document completely
unmodified — failures happen before any write — and in particular setting
`a.b` on the document where `a` holds the scalar 1 is NotFound and returns
the document unchanged. -/
theorem set_failure_leaves_document_unchanged :
    (∀ (frags : List Fragment) (D V : JsonValue),
        (setWalk frags D V).2 = none → (setWalk frags D V).1 = D)
    ∧ setWalk [Fragment.str "a", Fragment.str "b"]
        (JsonValue.obj [("a", JsonValue.num 1)]) (JsonValue.num 5)
        = (JsonValue.obj [("a", JsonValue.num 1)], none) :=
  ⟨fun frags D V h => setWalk_fail_noop frags D V h, rfl⟩

/-- Witness for claim C3: setting through the scalar root 3 fails and leaves
it unchanged. -/
theorem set_failure_leaves_document_unchanged_witness :
    (setWalk [Fragment.str "x"] (JsonValue.num 3) (JsonValue.num 7)).1 = JsonValue.num 3 :=
  set_failure_leaves_document_unchanged.1 [Fragment.str "x"] (JsonValue.num 3)
    (JsonValue.num 7) rfl

/-- Claim C4: when a set walk reaches a non-final step whose target slot does
not yet exist — a missing object key, or an array index that is out of range
— it materializes an empty container there whose kind is chosen by lookahead
at the next fragment (an empty array for a numeric fragment, an empty object
for a string fragment); in particular setting `a.b` to 5 on the empty object
yields the nested object with 5 at `a.b`. -/
theorem set_materializes_matching_container :
    (∀ (fields : List (String × JsonValue)) (s : String) (c : Fragment)
        (rest : List Fragment) (V : JsonValue),
        lookupField fields s = none →
        ∃ child,
          getWalk [Fragment.str s]
            ((setWalk (Fragment.str s :: c :: rest) (JsonValue.obj fields) V).1)
            = some child ∧ kindMatches c child)
    ∧ (∀ (xs : List JsonValue) (n : Nat) (c : Fragment)
        (rest : List Fragment) (V : JsonValue),
        xs[n]? = none →
        ∃ child,
          getWalk [Fragment.num n]
            ((setWalk (Fragment.num n :: c :: rest) (JsonValue.arr xs) V).1)
            = some child ∧ kindMatches c child)
    ∧ setWalk [Fragment.str "a", Fragment.str "b"] (JsonValue.obj []) (JsonValue.num 5)
        = (JsonValue.obj [("a", JsonValue.obj [("b", JsonValue.num 5)])],
           some (JsonValue.num 5)) := by
  refine ⟨?_, ?_, rfl⟩
  · intro fields s c rest V h
    cases c with
    | num n =>
      obtain ⟨ys, hy⟩ := setWalk_arr_shape (Fragment.num n :: rest) [] V
      refine ⟨JsonValue.arr ys, ?_, ys, rfl⟩
      simp only [setWalk, h]
      show getWalk [Fragment.str s]
          (JsonValue.obj (upsert (upsert fields s (JsonValue.arr []))
            s (setWalk (Fragment.num n :: rest) (JsonValue.arr []) V).1))
          = some (JsonValue.arr ys)
      rw [hy]
      simp [getWalk, lookupField_upsert]
    | str s2 =>
      obtain ⟨fs, hf⟩ := setWalk_obj_shape (Fragment.str s2 :: rest) [] V
      refine ⟨JsonValue.obj fs, ?_, fs, rfl⟩
      simp only [setWalk, h]
      show getWalk [Fragment.str s]
          (JsonValue.obj (upsert (upsert fields s (JsonValue.obj []))
            s (setWalk (Fragment.str s2 :: rest) (JsonValue.obj []) V).1))
          = some (JsonValue.obj fs)
      rw [hf]
      simp [getWalk, lookupField_upsert]
  · intro xs n c rest V h
    cases c with
    | num m =>
      obtain ⟨ys, hy⟩ := setWalk_arr_shape (Fragment.num m :: rest) [] V
      refine ⟨JsonValue.arr ys, ?_, ys, rfl⟩
      simp only [setWalk, h]
      show getWalk [Fragment.num n]
          (JsonValue.arr (setIdx (setIdx xs n (JsonValue.arr []))
            n (setWalk (Fragment.num m :: rest) (JsonValue.arr []) V).1))
          = some (JsonValue.arr ys)
      rw [hy]
      simp [getWalk, getElem?_setIdx]
    | str s2 =>
      obtain ⟨fs, hf⟩ := setWalk_obj_shape (Fragment.str s2 :: rest) [] V
      refine ⟨JsonValue.obj fs, ?_, fs, rfl⟩
      simp only [setWalk, h]
      show getWalk [Fragment.num n]
          (JsonValue.arr (setIdx (setIdx xs n (JsonValue.obj []))
            n (setWalk (Fragment.str s2 :: rest) (JsonValue.obj []) V).1))
          = some (JsonValue.obj fs)
      rw [hf]
      simp [getWalk, getElem?_setIdx]

/-- Witness for claim C4: setting `a.b` on the empty object materializes an
object (not an array) at the missing key `a`. -/
theorem set_materializes_matching_container_witness :
    ∃ child,
      getWalk [Fragment.str "a"]
        ((setWalk [Fragment.str "a", Fragment.str "b"] (JsonValue.obj [])
          (JsonValue.num 5)).1)
        = some child ∧ kindMatches (Fragment.str "b") child :=
  set_materializes_matching_container.1 [] "a" (Fragment.str "b") [] (JsonValue.num 5) rfl

/-- Claim C5, counterexample: `parseJsonPath("")` does not yield the empty
step sequence — splitting the empty string on dots yields one empty fragment,
the regex cannot match it, and the source throws `Invalid JSON path.`
(modelled as `none`). -/
theorem parse_empty_path_throws :
    parseJsonPath "" = none ∧ parseJsonPath "" ≠ some [] := by
  exact ⟨by decide, by decide⟩

/-- Claim C5, amended: `parseJsonPath("")` raises the path syntax error
instead of returning an empty step sequence (so the string-level
`getValueFromPath(root, "")` propagates that exception, the parse being
outside its catch); the get *walk* over an already-parsed empty step sequence
returns the root unchanged for every root, and the walk itself never throws
(it is total, with the NotFound sentinel as its only failure mode). -/
theorem parse_empty_and_get_root :
    parseJsonPath "" = none
    ∧ (∀ root : JsonValue, getWalk [] root = some root)
    ∧ (∀ root : JsonValue, getValueFromPath root "" = none) := by
  refine ⟨by decide, fun root => rfl, fun root => rfl⟩

/-- Claim C6: the get walk fails with NotFound on a step-kind mismatch in
both directions — a numeric fragment applied to an object and a string
fragment applied to an array both yield the `undefined` sentinel — and in
particular reading `a.b` where `a` holds the array `[1, 2]` is NotFound. -/
theorem get_kind_mismatch_not_found :
    (∀ (n : Nat) (rest : List Fragment) (fields : List (String × JsonValue)),
        getWalk (Fragment.num n :: rest) (JsonValue.obj fields) = none)
    ∧ (∀ (s : String) (rest : List Fragment) (xs : List JsonValue),
        getWalk (Fragment.str s :: rest) (JsonValue.arr xs) = none)
    ∧ getWalk [Fragment.str "a", Fragment.str "b"]
        (JsonValue.obj [("a", JsonValue.arr [JsonValue.num 1, JsonValue.num 2])]) = none :=
  ⟨fun _ _ _ => rfl, fun _ _ _ => rfl, rfl⟩

/-- Claim C7: for every path registered with kind `boolean` and every raw
value, `normalizeValue` trims the JS string coercion of the value and
compares it case-sensitively to the keywords, returning the corresponding
boolean and raising the invalid-type error otherwise; in particular `"true"`
at `cli.warnings.versionMismatch` normalizes to `true` and `"maybe"` there
raises the invalid-type error. -/
theorem normalize_boolean_registry_paths :
    (∀ (p : String) (v : JsonValue), lookupKind validCliPaths p = some "boolean" →
        normalizeValue v p =
          (if trimChars (jsString v).toList = "true".toList then
            NormResult.ok (JsonValue.bool true)
           else if trimChars (jsString v).toList = "false".toList then
            NormResult.ok (JsonValue.bool false)
           else NormResult.invalidTypeError "boolean"))
    ∧ normalizeValue (JsonValue.str "true") "cli.warnings.versionMismatch"
        = NormResult.ok (JsonValue.bool true)
    ∧ normalizeValue (JsonValue.str "maybe") "cli.warnings.versionMismatch"
        = NormResult.invalidTypeError "boolean" := by
  refine ⟨?_, rfl, rfl⟩
  intro p v h
  simp only [normalizeValue, normalizeValueWith, h]

/-- Witness for claim C7: the other boolean-kind registry path normalizes a
padded `" false "` to `false` after trimming. -/
theorem normalize_boolean_registry_paths_witness :
    normalizeValue (JsonValue.str " false ") "cli.warnings.typescriptMismatch"
      = NormResult.ok (JsonValue.bool false) :=
  normalize_boolean_registry_paths.1 "cli.warnings.typescriptMismatch"
    (JsonValue.str " false ") (by decide)

/-- Claim C8: the registry `validCliPaths` registers no path with kind
`number` (every registered kind is `boolean` or `string`), so the numeric
branch is unreachable through `normalizeValue`; evaluating the branch itself
(over a registry binding kind `number`) shows its guard is inverted: the
unparsable raw value `"abc"` makes it *return* the non-finite `Number()`
result instead of raising the invalid-type error, and the cleanly parsable
`"42"` raises the invalid-type error. -/
theorem number_kind_unreachable_and_inverted :
    (∀ (p k : String), lookupKind validCliPaths p = some k →
        k = "boolean" ∨ k = "string")
    ∧ normalizeValueWith [("cli.sample", "number")] (JsonValue.str "abc") "cli.sample"
        = NormResult.nonFiniteNumber
    ∧ normalizeValueWith [("cli.sample", "number")] (JsonValue.str "42") "cli.sample"
        = NormResult.invalidTypeError "number" := by
  refine ⟨?_, rfl, rfl⟩
  intro p k h
  simp only [validCliPaths, lookupKind] at h
  split at h
  · exact Or.inl (Option.some.inj h).symm
  · split at h
    · exact Or.inl (Option.some.inj h).symm
    · split at h
      · exact Or.inr (Option.some.inj h).symm
      · split at h
        · exact Or.inr (Option.some.inj h).symm
        · exact absurd h (by simp)

/-- Witness for claim C8: `cli.packageManager` is registered, with kind
`string`. -/
theorem number_kind_unreachable_and_inverted_witness :
    ("string" : String) = "boolean" ∨ ("string" : String) = "string" :=
  number_kind_unreachable_and_inverted.1 "cli.packageManager" "string" (by decide)

/-- Claim C9: for every path absent from the registry and every string raw
value, `normalizeValue` attempts the lenient JSON parse; an
invalid-JSON-character failure on text that does not start with an opening
curly brace falls back to the raw text as a plain string, while a failure on
object-like text propagates; in particular `"42"` parses to the number 42 and
`"not-json-but-plain"` falls back to itself. -/
theorem normalize_unregistered_lenient_json :
    (∀ (p s : String), lookupKind validCliPaths p = none →
        normalizeValue (JsonValue.str s) p =
          (match parseJsonLoose s with
           | ParseOutcome.ok v => NormResult.ok v
           | ParseOutcome.invalidJsonCharacter =>
             if startsWithBrace s then NormResult.invalidJsonCharacterError
             else NormResult.ok (JsonValue.str s)))
    ∧ normalizeValue (JsonValue.str "42") "schematics.foo" = NormResult.ok (JsonValue.num 42)
    ∧ normalizeValue (JsonValue.str "not-json-but-plain") "schematics.foo"
        = NormResult.ok (JsonValue.str "not-json-but-plain")
    ∧ normalizeValue (JsonValue.str "\x7boops") "schematics.foo"
        = NormResult.invalidJsonCharacterError := by
  refine ⟨?_, rfl, rfl, rfl⟩
  intro p s h
  simp only [normalizeValue, normalizeValueWith, h]

/-- Witness for claim C9: the unregistered path `schematics.bar` lenient-
parses the keyword `"true"` to the boolean true. -/
theorem normalize_unregistered_lenient_json_witness :
    normalizeValue (JsonValue.str "true") "schematics.bar"
      = NormResult.ok (JsonValue.bool true) :=
  normalize_unregistered_lenient_json.1 "schematics.bar" "true" (by decide)

/-- Claim C10: the set walk treats an existing `null` at a non-final step as
absent (the source's loose `value[current] == undefined` comparison): the
null is replaced by a freshly materialized container and the walk continues
and succeeds; in particular setting `a.b` to 5 where `a` holds null yields
the nested object — whereas the get walk on the original document at `a.b`
is NotFound. -/
theorem set_null_treated_as_absent :
    (∀ (fields : List (String × JsonValue)) (k : String) (c : Fragment)
        (rest : List Fragment) (V : JsonValue),
        lookupField fields k = some JsonValue.null →
        ((setWalk (Fragment.str k :: c :: rest) (JsonValue.obj fields) V).2).isSome = true)
    ∧ setWalk [Fragment.str "a", Fragment.str "b"]
        (JsonValue.obj [("a", JsonValue.null)]) (JsonValue.num 5)
        = (JsonValue.obj [("a", JsonValue.obj [("b", JsonValue.num 5)])],
           some (JsonValue.num 5))
    ∧ getWalk [Fragment.str "a", Fragment.str "b"]
        (JsonValue.obj [("a", JsonValue.null)]) = none := by
  refine ⟨?_, rfl, rfl⟩
  intro fields k c rest V h
  simp only [setWalk, h]
  exact setWalk_containerFor_isSome rest c V

/-- Witness for claim C10: the concrete null-shadowed set at `a.b` succeeds. -/
theorem set_null_treated_as_absent_witness :
    ((setWalk [Fragment.str "a", Fragment.str "b"]
      (JsonValue.obj [("a", JsonValue.null)]) (JsonValue.num 5)).2).isSome = true :=
  set_null_treated_as_absent.1 [("a", JsonValue.null)] "a" (Fragment.str "b") []
    (JsonValue.num 5) rfl
